import Mathlib

set_option maxRecDepth 100000

/-!
Verification development for the `issue-pr` GitHub action of this repository
(`src/scripts/actions/issue-pr.ts`).

The action is embedded shallowly:

* issue bodies, headings and messages are `List Char`;
* the two regex-driven extraction routines `getCodeBlock` and
  `getCommentRange` are embedded as explicit scans that reproduce the
  lazy (non-greedy, leftmost) matching of the source regexes
  `## <title>[\s\S]*?<fence><lang>([\s\S]*?)<fence>` and
  `<!--<key>-start-->([\s\S]*?)<!--<key>-end-->`;
* the YAML value space is the inductive `Yv` together with JavaScript
  truthiness (`truthy`), since the gate and the author override test use
  JS falsiness (`!info`, `!info.author`);
* the external GitHub API is modelled by an operation trace (`Op`):
  the action is the pure function `runAction` from its inputs (issue
  payload, the responses the API would give) to an `Outcome` holding the
  trace, the resulting comment list and a result tag.
-/

/-- Whitespace recognised by `String.prototype.trim` (ASCII part: space,
tab, newline, carriage return, vertical tab, form feed). -/
def isWs (c : Char) : Bool :=
  c == ' ' || c == '\t' || c == '\n' || c == '\r' || c == '\x0b' || c == '\x0c'

/-- Drop the longest prefix whose characters satisfy `p`. -/
def dropP (p : Char → Bool) : List Char → List Char
  | [] => []
  | c :: cs => if p c then dropP p cs else c :: cs

/-- Strip characters satisfying `p` from both ends. -/
def trimWith (p : Char → Bool) (l : List Char) : List Char :=
  (dropP p ((dropP p l).reverse)).reverse

/-- JavaScript `String.prototype.trim` on the modelled character set. -/
def trim (l : List Char) : List Char := trimWith isWs l

/-- Does `pat` occur as a prefix of `l`? -/
def startsW : List Char → List Char → Bool
  | [], _ => true
  | _ :: _, [] => false
  | a :: as, b :: bs => a == b && startsW as bs

/-- Index of the first occurrence of `pat` in `t` (leftmost match of a
literal pattern, as a JS regex scan finds it). -/
def findSub (pat : List Char) : List Char → Option Nat
  | [] => if startsW pat [] then some 0 else none
  | c :: tl => if startsW pat (c :: tl) then some 0 else Option.map (· + 1) (findSub pat tl)

/-- Index of the first occurrence of `pat` in `text` at position `lo` or
later. -/
def findSubFrom (text pat : List Char) (lo : Nat) : Option Nat :=
  Option.map (· + lo) (findSub pat (text.drop lo))

/-- `pat` occurs in `text` at index `i`. -/
def occursAtB (text pat : List Char) (i : Nat) : Bool :=
  startsW pat (text.drop i)

/-- The characters of `text` with indices in `[a, b)`. -/
def sliceIdx (text : List Char) (a b : Nat) : List Char :=
  (text.drop a).take (b - a)

/-- JavaScript `s.replace(pat, rep)` with a string pattern: replace the
first occurrence only. -/
def replaceFirst (s pat rep : List Char) : List Char :=
  match findSub pat s with
  | none => s
  | some i => s.take i ++ rep ++ s.drop (i + pat.length)

/-- Decimal digit string of a natural number. -/
def natStr (n : Nat) : List Char := Nat.toDigits 10 n

example : natStr 42 = "42".data := by decide
example : trim "\n info \t".data = "info".data := by decide
example : findSub "ab".data "xxabab".data = some 2 := by decide
example : findSubFrom "xxabab".data "ab".data 3 = some 4 := by decide
example : replaceFirst "#{0} x".data "{0}".data "7".data = "#7 x".data := by decide

/-- JavaScript `title.replace(/\./g, '-')`: every literal dot becomes a
hyphen. -/
def replaceDots (s : List Char) : List Char :=
  s.map (fun c => if c == '.' then '-' else c)

/-- Characters the regex metacharacter `.` does not match (JS without the
`s` flag): line terminators. -/
def isNl (c : Char) : Bool := c == '\n' || c == '\r'

/-- Index of the last occurrence of `ch` in `l`. -/
def lastIdxOf (ch : Char) (l : List Char) : Option Nat :=
  match findSub [ch] l.reverse with
  | none => none
  | some i => some (l.length - 1 - i)

/-- Greedy match target for `/<.*>/` starting right after a `<`: the last
`>` inside the maximal newline-free segment. -/
def lastGtInSeg (l : List Char) : Option Nat :=
  lastIdxOf '>' (l.takeWhile (fun c => !isNl c))

/-- Fuel-driven worker for `rmTags`; one unit of fuel is spent per scanned
position, and every step strictly shortens the list, so `l.length` fuel
always suffices. -/
def rmTagsF : Nat → List Char → List Char
  | 0, l => l
  | _, [] => []
  | fuel + 1, c :: rest =>
    if c == '<' then
      match lastGtInSeg rest with
      | some j => rmTagsF fuel (rest.drop (j + 1))
      | none => c :: rmTagsF fuel rest
    else c :: rmTagsF fuel rest

/-- JavaScript `s.replace(/<.*>/g, '')`: repeatedly delete, scanning left
to right, a greedy match from a `<` to the last `>` on the same line. -/
def rmTags (l : List Char) : List Char := rmTagsF l.length l

/-- Collapse runs of hyphens to a single hyphen. -/
def collapseDash : List Char → List Char
  | [] => []
  | [c] => [c]
  | a :: b :: rest =>
    if a == '-' && b == '-' then collapseDash (b :: rest)
    else a :: collapseDash (b :: rest)

/-- ASCII alphanumeric test. -/
def isAlnum (c : Char) : Bool := c.isAlpha || c.isDigit

/-- Modelled from the spec: the external `limax` slug dependency (not part
of this repository) per the spec's contract and glossary — a URL-safe,
lowercase, hyphenated derivation of the title: alphanumerics are
lowercased, other characters become hyphens, runs collapse, and leading
and trailing hyphens are dropped. -/
def slugify (s : List Char) : List Char :=
  trimWith (· == '-') (collapseDash (s.map (fun c => if isAlnum c then c.toLower else '-')))

example : rmTags "Pick<T>".data = "Pick".data := by decide
example : rmTags "a<b> and <c>d".data = "ad".data := by decide
example : rmTags "a<b\nc>d".data = "a<b\nc>d".data := by decide
example : slugify "Pick".data = "pick".data := by decide
example : slugify "  Deep Readonly ".data = "deep-readonly".data := by decide
example : replaceDots "4.2".data = "4-2".data := by decide

/-- Values produced by the external YAML codec, as the action observes
them through JavaScript: null, booleans, numbers, strings and mappings.
`none : Option Yv` at use sites stands for `undefined`/parse failure. -/
inductive Yv where
  | vnull : Yv
  | vbool : Bool → Yv
  | vnum : Int → Yv
  | vstr : List Char → Yv
  | vmap : List (List Char × Yv) → Yv

/-- JavaScript truthiness of a defined value. -/
def truthy : Yv → Bool
  | .vnull => false
  | .vbool b => b
  | .vnum n => n != 0
  | .vstr s => !s.isEmpty
  | .vmap _ => true

/-- JavaScript falsiness of a possibly-undefined value (`!x`). -/
def optFalsy : Option Yv → Bool
  | none => true
  | some v => !truthy v

/-- JavaScript falsiness of a possibly-null extracted string
(`!question` and friends: absent or empty string). -/
def optFalsyStr : Option (List Char) → Bool
  | none => true
  | some s => s.isEmpty

/-- JavaScript property read `v.k`: defined only on mappings (first entry
with the key), `undefined` (`none`) otherwise. -/
def yGet : Yv → List Char → Option Yv
  | .vmap es, k => (es.find? (fun e => e.1 == k)).map (fun e => e.2)
  | _, _ => none

/-- JavaScript property write on a mapping: replace the value of an
existing key in place, else append the key. -/
def setKey (es : List (List Char × Yv)) (k : List Char) (v : Yv) : List (List Char × Yv) :=
  if es.any (fun e => e.1 == k) then es.map (fun e => if e.1 == k then (e.1, v) else e)
  else es ++ [(k, v)]

/-- JavaScript string coercion of a possibly-undefined value, as a
template literal performs it. -/
def jsStr : Option Yv → List Char
  | none => "undefined".data
  | some .vnull => "null".data
  | some (.vbool true) => "true".data
  | some (.vbool false) => "false".data
  | some (.vnum n) => if n < 0 then '-' :: natStr n.natAbs else natStr n.toNat
  | some (.vstr s) => s
  | some (.vmap _) => "[object Object]".data

example : optFalsy (some (Yv.vstr [])) = true := by decide
example : yGet (Yv.vmap [("a".data, Yv.vnull)]) "a".data = some Yv.vnull := by rfl

/-- Captured group of the source regex
``## <title>[\s\S]*?```<lang>([\s\S]*?)``` `` on `text`: the leftmost
match takes the first occurrence of the heading, then (all quantifiers
being lazy) the first code fence tagged `lang` after it and the first
closing fence after that.  `none` when the regex does not match. -/
def rawGroup (text title lang : List Char) : Option (List Char) :=
  (findSubFrom text ("## ".data ++ title) 0).bind (fun s =>
    (findSubFrom text ("```".data ++ lang) (s + ("## ".data ++ title).length)).bind (fun p =>
      (findSubFrom text "```".data (p + ("```".data ++ lang).length)).map (fun q =>
        sliceIdx text (p + ("```".data ++ lang).length) q)))

/-- Embedding of `getCodeBlock` (issue-pr.ts:214–220): the captured group
of the first regex match, trimmed; `null` when there is no match or the
captured group is the empty string (`match[1]` is falsy). -/
def getCodeBlock (text title lang : List Char) : Option (List Char) :=
  match rawGroup text title lang with
  | none => none
  | some g => if g.isEmpty then none else some (trim g)

/-- Captured group of the source regex
`<!--<key>-start-->([\s\S]*?)<!--<key>-end-->` (issue-pr.ts:222-228):
text strictly between the first start marker and the first end marker
after it; `none` when the regex does not match. -/
def commentGroup (text key : List Char) : Option (List Char) :=
  (findSubFrom text ("<!--".data ++ key ++ "-start-->".data) 0).bind (fun s =>
    (findSubFrom text ("<!--".data ++ key ++ "-end-->".data)
        (s + ("<!--".data ++ key ++ "-start-->".data).length)).map (fun q =>
      sliceIdx text (s + ("<!--".data ++ key ++ "-start-->".data).length) q))

/-- Embedding of `getCommentRange` (issue-pr.ts:222-228), continued: the
captured group of the first match, trimmed; `null` on no match or an
empty captured group (`match[1]` falsy). -/
def getCommentRange (text key : List Char) : Option (List Char) :=
  match commentGroup text key with
  | none => none
  | some g => if g.isEmpty then none else some (trim g)

/-- The two locales of the `Messages` table (issue-pr.ts:10–27). -/
inductive Loc where
  | en : Loc
  | zhCN : Loc
deriving DecidableEq

/-- `Messages[locale].info`. -/
def Messages.info : Loc → List Char
  | .en => "Info".data
  | .zhCN => "基本信息".data

/-- `Messages[locale].template`. -/
def Messages.template : Loc → List Char
  | .en => "Template".data
  | .zhCN => "题目模版".data

/-- `Messages[locale].tests`. -/
def Messages.tests : Loc → List Char
  | .en => "Test Cases".data
  | .zhCN => "判题测试".data

/-- `Messages[locale].issue_reply` — the "Pull Request created" reply
template.  Present in the source's message table for both locales but
referenced nowhere in the action. -/
def Messages.issueReply : Loc → List Char
  | .en => "#{0} - Pull Request created.".data
  | .zhCN => "#{0} - PR 已生成".data

/-- `Messages[locale].issue_update_reply` — the "Pull Request updated"
reply template. -/
def Messages.issueUpdateReply : Loc → List Char
  | .en => "#{0} - Pull Request updated.".data
  | .zhCN => "#{0} - PR 已更新".data

/-- `Messages[locale].issue_invalid_reply`. -/
def Messages.issueInvalidReply : Loc → List Char
  | .en => "Failed to parse the issue, please follow the template.".data
  | .zhCN => "Issue 格式不正确，请按照依照模版修正".data

example :
    getCodeBlock "## Info\n```yaml\nfoo\n```".data "Info".data "yaml".data
      = some "foo".data := by decide
example :
    getCodeBlock "## Info\n```yaml\nfoo\n```".data "Template".data "ts".data
      = none := by decide
example :
    getCommentRange "x<!--question-start--> Q <!--question-end-->y".data "question".data
      = some "Q".data := by decide
example : getCodeBlock "## Template```ts```".data "Template".data "ts".data = none := by decide
example :
    getCodeBlock "## Template\n```ts\n \n```".data "Template".data "ts".data
      = some [] := by decide

/-- The fixed automation identity the action filters pull requests and
comments by (`'github-actions[bot]'`). -/
def botLogin : List Char := "github-actions[bot]".data

/-- The issue payload fields the action reads: number, body, label names
and the author's login. -/
structure Issue where
  number : Nat
  body : List Char
  labels : List (List Char)
  userLogin : List Char
deriving DecidableEq

/-- A user profile as returned by `users.getByUsername`: login, numeric
id and a possibly-null display name. -/
structure User where
  login : List Char
  id : Nat
  name : Option (List Char)
deriving DecidableEq

/-- An open pull request as returned by `pulls.list`. -/
structure PullReq where
  number : Nat
  userLogin : List Char
  title : List Char
deriving DecidableEq

/-- A comment on the issue as returned by `issues.listComments`. -/
structure CommentRec where
  id : Nat
  userLogin : List Char
  body : List Char
deriving DecidableEq

/-- Observable operations the action performs against the GitHub API, in
order.  `pushCommit` records the branch, the `fresh` flag, the
destination directory, the metadata serialised into `info.yml` and the
commit author. -/
inductive Op where
  | getUser : List Char → Op
  | listPulls : Op
  | pushCommit : (head : List Char) → (fresh : Bool) → (dir : List Char) →
      (infoFinal : Yv) → (authorName : Option (List Char)) → (authorEmail : List Char) → Op
  | createPull : (head : List Char) → (title : List Char) → Op
  | listComments : Op
  | createComment : (body : List Char) → Op
  | updateComment : (commentId : Nat) → (body : List Char) → Op

/-- Result tag of one invocation: skipped (no issue or no
`new-challenge` label), halted as invalid, crashed on an unhandled
JavaScript `TypeError`, or finished having created/updated the PR. -/
inductive RunResult where
  | skipped : RunResult
  | invalid : RunResult
  | crashed : RunResult
  | created : Nat → RunResult
  | updated : Nat → RunResult
deriving DecidableEq

/-- Everything one invocation observes: the API operation trace, the
comment list on the issue after the run, and the result tag. -/
structure Outcome where
  ops : List Op
  comments : List CommentRec
  result : RunResult

/-- Inputs of one invocation: the issue payload plus the responses the
external API would give (user profile, open pull requests, comments on
the issue, the number a freshly created PR would get, the id a freshly
created comment would get) and the rendered badge markup (wall-clock
timestamp badge and playground badge, both produced by out-of-scope
helpers). -/
structure ActionInput where
  issue : Option Issue
  user : Option User
  openPulls : List PullReq
  comments : List CommentRec
  newPrNumber : Nat
  newCommentId : Nat
  tsBadge : List Char
  pgBadge : List Char

/-- Embedding of `updateComment` (issue-pr.ts:184–212): look up the
comments, take the first authored by the automation identity; update its
body in place when found, otherwise create a new comment.  Returns the
comment list after the call and the mutating operation performed. -/
def updateCommentStep (comments : List CommentRec) (body : List Char) (newId : Nat) :
    List CommentRec × Op :=
  match comments.find? (fun c => c.userLogin == botLogin) with
  | some c =>
    (comments.map (fun x => if x.id == c.id then ⟨x.id, x.userLogin, body⟩ else x),
     Op.updateComment c.id body)
  | none =>
    (comments ++ [⟨newId, botLogin, body⟩], Op.createComment body)

/-- The fresh author object the source builds when `info.author` is
falsy (issue-pr.ts:86-91): the issue author's login as `github` and —
when a user record exists — the profile's display name as `name`. -/
def authorBlock (login : List Char) (user : Option User) : Yv :=
  .vmap (("github".data, Yv.vstr login) ::
    match user with
    | some u => [("name".data, match u.name with
                  | some n => Yv.vstr n
                  | none => Yv.vnull)]
    | none => [])

/-- Embedding of the author-override conditional (issue-pr.ts:86-91),
continued: replace a falsy `author` with the fresh author block; a
non-mapping metadata value makes the JavaScript property write throw
(`none`). -/
def authorStep (info : Yv) (login : List Char) (user : Option User) : Option Yv :=
  if optFalsy (yGet info "author".data) then
    match info with
    | .vmap es => some (.vmap (setKey es "author".data (authorBlock login user)))
    | _ => none
  else some info

/-- The predicate `pulls.find` uses (issue-pr.ts:99–102): authored by the
automation identity and titled with the `#<no> ` prefix. -/
def isAutomationPull (no : Nat) (p : PullReq) : Bool :=
  p.userLogin == botLogin && startsW ("#".data ++ natStr no ++ " ".data) p.title

/-- The destination directory (issue-pr.ts:104):
`questions/<no>-<difficulty>-<slug(title with dots dashed and tag-like
substrings removed)>`. -/
def dirFor (no : Nat) (difficulty : List Char) (title : List Char) : List Char :=
  "questions/".data ++ natStr no ++ "-".data ++ difficulty ++ "-".data
    ++ slugify (rmTags (replaceDots title))

/-- The commit-author email (issue-pr.ts:105):
`<id>+<login>@users.noreply.github.com`. -/
def emailFor (u : User) : List Char :=
  natStr u.id ++ "+".data ++ u.login ++ "@users.noreply.github.com".data

/-- `createMessageBody` (issue-pr.ts:141–144): the `issue_update_reply`
template with `{0}` replaced by the PR number, followed by the timestamp
badge and the playground badge.  This template is used on both the
create and the update path. -/
def msgBody (loc : Loc) (prNumber : Nat) (ts pg : List Char) : List Char :=
  replaceFirst (Messages.issueUpdateReply loc) "{0}".data (natStr prNumber)
    ++ "\n\n".data ++ ts ++ "  ".data ++ pg

/-- The outcome of the invalid-issue path (issue-pr.ts:74–81): upsert the
localized invalid-format comment; nothing else. -/
def invalidOutcome (loc : Loc) (inp : ActionInput) : Outcome :=
  let pr := updateCommentStep inp.comments (Messages.issueInvalidReply loc) inp.newCommentId
  ⟨[Op.listComments, pr.2], pr.1, RunResult.invalid⟩

/-- The tail of the valid path once the author step succeeded, the title
is a string and the user record exists (issue-pr.ts:93–177): list pulls,
push the commit to `pulls/<no>` (fresh iff no automation PR was found),
then either create the PR and comment, or just comment. -/
def validOutcome (inp : ActionInput) (iss : Issue) (loc : Loc) (iv2 : Yv)
    (t : List Char) (u : User) : Outcome :=
  let no := iss.number
  let head := "pulls/".data ++ natStr no
  let existing := inp.openPulls.find? (isAutomationPull no)
  let push := Op.pushCommit head existing.isNone
    (dirFor no (jsStr (yGet iv2 "difficulty".data)) t) iv2 u.name (emailFor u)
  match existing with
  | some ep =>
    let pr := updateCommentStep inp.comments (msgBody loc ep.number inp.tsBadge inp.pgBadge)
      inp.newCommentId
    ⟨[Op.getUser iss.userLogin, Op.listPulls, push, Op.listComments, pr.2], pr.1,
      RunResult.updated ep.number⟩
  | none =>
    let pr := updateCommentStep inp.comments
      (msgBody loc inp.newPrNumber inp.tsBadge inp.pgBadge) inp.newCommentId
    ⟨[Op.getUser iss.userLogin, Op.listPulls, push,
        Op.createPull head ("#".data ++ natStr no ++ " - ".data ++ t),
        Op.listComments, pr.2], pr.1,
      RunResult.created inp.newPrNumber⟩

/-- The valid path (issue-pr.ts:83–177): fetch the user, run the author
step (which can throw), read `info.title` (throws unless a string),
require the user record (line 105 dereferences `user.id` unguarded),
then `validOutcome`. -/
def runValid (inp : ActionInput) (iss : Issue) (loc : Loc) (iv : Yv) : Outcome :=
  match authorStep iv iss.userLogin inp.user with
  | none => ⟨[Op.getUser iss.userLogin], inp.comments, RunResult.crashed⟩
  | some iv2 =>
    match yGet iv2 "title".data, inp.user with
    | some (.vstr t), some u => validOutcome inp iss loc iv2 t u
    | _, _ => ⟨[Op.getUser iss.userLogin, Op.listPulls], inp.comments, RunResult.crashed⟩

/-- The parsed metadata: `YAML.safeLoad(infoRaw || '')` with the codec
supplied as the oracle `parse` (`none` models both a thrown parse error,
which the source catches, and an `undefined`/null result). -/
def parsedInfo (parse : List Char → Option Yv) (body : List Char) (loc : Loc) : Option Yv :=
  parse ((getCodeBlock body (Messages.info loc) "yaml".data).getD [])

/-- The labelled-issue path (issue-pr.ts:45–177): extract the four
sections, gate on JavaScript falsiness of any of them, then the valid
path. -/
def runChallenge (parse : List Char → Option Yv) (inp : ActionInput) (iss : Issue)
    (loc : Loc) : Outcome :=
  if optFalsyStr (getCommentRange iss.body "question".data)
      || optFalsyStr (getCodeBlock iss.body (Messages.template loc) "ts".data)
      || optFalsyStr (getCodeBlock iss.body (Messages.tests loc) "ts".data)
      || optFalsy (parsedInfo parse iss.body loc)
  then invalidOutcome loc inp
  else
    match parsedInfo parse iss.body loc with
    | some iv => runValid inp iss loc iv
    | none => invalidOutcome loc inp

/-- Locale selection (issue-pr.ts:43): `zh-CN` when that label is
present, English otherwise. -/
def localeOf (iss : Issue) : Loc :=
  if iss.labels.any (fun l => l == "zh-CN".data) then Loc.zhCN else Loc.en

/-- Embedding of the whole action (issue-pr.ts:29–182): skip without
side effects unless an issue payload with the `new-challenge` label is
present, then run the challenge pipeline. -/
def runAction (parse : List Char → Option Yv) (inp : ActionInput) : Outcome :=
  match inp.issue with
  | none => ⟨[], inp.comments, RunResult.skipped⟩
  | some iss =>
    if iss.labels.any (fun l => l == "new-challenge".data) then
      runChallenge parse inp iss (localeOf iss)
    else ⟨[], inp.comments, RunResult.skipped⟩

/-- A well-formed English submission body: all four sections present. -/
def bodyA : List Char :=
  ("## Info\n```yaml\ninfo\n```\n## Template\n```ts\ncode\n```\n"
    ++ "## Test Cases\n```ts\ntest\n```\n<!--question-start-->Q<!--question-end-->").data

/-- Metadata the sample YAML oracle returns for `bodyA`. -/
def infoMapA : Yv :=
  .vmap [("title".data, .vstr "Foo".data), ("difficulty".data, .vstr "easy".data)]

/-- Sample YAML oracle: parses the text `info` to `infoMapA`. -/
def parseA : List Char → Option Yv :=
  fun s => if s == "info".data then some infoMapA else none

/-- Sample issue #3 with the `new-challenge` label. -/
def issA : Issue := ⟨3, bodyA, ["new-challenge".data], "alice".data⟩

/-- Sample user record for the issue author. -/
def userA : User := ⟨"alice".data, 10, some "Alice".data⟩

/-- Sample invocation input: no open pulls, no comments yet; a created
PR would get number 7 and a created comment id 99; badges empty. -/
def inpA : ActionInput := ⟨some issA, some userA, [], [], 7, 99, [], []⟩

example : getCodeBlock bodyA "Info".data "yaml".data = some "info".data := by decide
example : getCodeBlock bodyA "Template".data "ts".data = some "code".data := by decide
example : getCodeBlock bodyA "Test Cases".data "ts".data = some "test".data := by decide
example : getCommentRange bodyA "question".data = some "Q".data := by decide
example : parsedInfo parseA bodyA Loc.en = some infoMapA := by rfl
example : (runAction parseA inpA).result = RunResult.created 7 := by rfl
example :
    runAction parseA inpA =
      ⟨[Op.getUser "alice".data, Op.listPulls,
        Op.pushCommit "pulls/3".data true "questions/3-easy-foo".data
          (.vmap [("title".data, .vstr "Foo".data), ("difficulty".data, .vstr "easy".data),
            ("author".data, .vmap [("github".data, .vstr "alice".data),
              ("name".data, .vstr "Alice".data)])])
          (some "Alice".data) "10+alice@users.noreply.github.com".data,
        Op.createPull "pulls/3".data "#3 - Foo".data,
        Op.listComments, Op.createComment "#7 - Pull Request updated.\n\n  ".data],
       [⟨99, botLogin, "#7 - Pull Request updated.\n\n  ".data⟩],
       RunResult.created 7⟩ := by rfl

theorem findSub_iff (pat : List Char) : ∀ (t : List Char) (i : Nat),
    findSub pat t = some i ↔
      (occursAtB t pat i = true ∧ ∀ j, j < i → occursAtB t pat j = false) := by
  intro t
  induction t with
  | nil =>
    intro i
    simp only [findSub, occursAtB, List.drop_nil]
    split
    · rename_i h
      constructor
      · intro hh
        obtain rfl : 0 = i := by simpa using hh
        exact ⟨h, fun j hj => absurd hj (Nat.not_lt_zero j)⟩
      · rintro ⟨h1, h2⟩
        have hi : i = 0 := by
          by_contra hne
          have := h2 0 (Nat.pos_of_ne_zero hne)
          rw [h] at this
          exact Bool.true_eq_false.mp this
        rw [hi]
    · rename_i h
      constructor
      · intro hh; exact absurd hh (by simp)
      · rintro ⟨h1, h2⟩; exact absurd h1 h
  | cons c tl ih =>
    intro i
    rw [findSub]
    split
    · rename_i h
      constructor
      · intro hh
        obtain rfl : 0 = i := by simpa using hh
        exact ⟨by simpa [occursAtB] using h, fun j hj => absurd hj (Nat.not_lt_zero j)⟩
      · rintro ⟨h1, h2⟩
        have hi : i = 0 := by
          by_contra hne
          have h0 := h2 0 (Nat.pos_of_ne_zero hne)
          simp only [occursAtB, List.drop_zero] at h0
          rw [h] at h0
          exact Bool.true_eq_false.mp h0
        rw [hi]
    · rename_i h
      have hfalse : startsW pat (c :: tl) = false := by
        revert h; cases startsW pat (c :: tl) <;> simp
      constructor
      · intro hh
        rcases hmap : findSub pat tl with _ | k
        · rw [hmap] at hh; exact absurd hh (by simp)
        · rw [hmap] at hh
          simp only [Option.map_some', Option.some.injEq] at hh
          obtain rfl : k + 1 = i := hh
          obtain ⟨g1, g2⟩ := (ih k).mp hmap
          refine ⟨by simpa [occursAtB, List.drop_succ_cons] using g1, ?_⟩
          intro j hj
          cases j with
          | zero => simpa [occursAtB] using hfalse
          | succ j2 =>
            have := g2 j2 (by omega)
            simpa [occursAtB, List.drop_succ_cons] using this
      · rintro ⟨h1, h2⟩
        cases i with
        | zero =>
          exfalso
          simp only [occursAtB, List.drop_zero] at h1
          rw [hfalse] at h1
          exact Bool.false_eq_true.mp h1
        | succ k =>
          have g : findSub pat tl = some k := by
            refine (ih k).mpr ⟨by simpa [occursAtB, List.drop_succ_cons] using h1, ?_⟩
            intro j hj
            have := h2 (j + 1) (by omega)
            simpa [occursAtB, List.drop_succ_cons] using this
          rw [g]
          simp

theorem findSub_none_iff (pat : List Char) : ∀ (t : List Char),
    findSub pat t = none ↔ ∀ j, occursAtB t pat j = false := by
  intro t
  induction t with
  | nil =>
    simp only [findSub, occursAtB, List.drop_nil]
    split
    · rename_i h
      constructor
      · intro hh; exact absurd hh (by simp)
      · intro hall
        rw [hall 0] at h
        exact absurd h (by simp)
    · rename_i h
      simp only [true_iff]
      intro j
      revert h; cases startsW pat [] <;> simp
  | cons c tl ih =>
    rw [findSub]
    split
    · rename_i h
      constructor
      · intro hh; exact absurd hh (by simp)
      · intro hall
        have h0 := hall 0
        simp only [occursAtB, List.drop_zero] at h0
        rw [h] at h0
        exact absurd h0 (by simp)
    · rename_i h
      have hfalse : startsW pat (c :: tl) = false := by
        revert h; cases startsW pat (c :: tl) <;> simp
      constructor
      · intro hh j
        have htl : findSub pat tl = none := by
          rcases hmap : findSub pat tl with _ | k
          · rfl
          · rw [hmap] at hh; exact absurd hh (by simp)
        cases j with
        | zero => simpa [occursAtB] using hfalse
        | succ j2 =>
          have := (ih.mp htl) j2
          simpa [occursAtB, List.drop_succ_cons] using this
      · intro hall
        have htl : findSub pat tl = none := by
          apply ih.mpr
          intro j
          have := hall (j + 1)
          simpa [occursAtB, List.drop_succ_cons] using this
        rw [htl]
        rfl

theorem findSubFrom_iff (text pat : List Char) (lo i : Nat) :
    findSubFrom text pat lo = some i ↔
      (lo ≤ i ∧ occursAtB text pat i = true ∧
        ∀ j, lo ≤ j → j < i → occursAtB text pat j = false) := by
  unfold findSubFrom
  have hdrop : ∀ k, occursAtB (text.drop lo) pat k = occursAtB text pat (lo + k) := by
    intro k
    simp [occursAtB, List.drop_drop, Nat.add_comm]
  rcases h : findSub pat (text.drop lo) with _ | k
  · simp only [Option.map_none']
    constructor
    · intro hh; exact absurd hh (by simp)
    · rintro ⟨h1, h2, h3⟩
      have := (findSub_none_iff pat (text.drop lo)).mp h (i - lo)
      rw [hdrop] at this
      rw [Nat.add_sub_cancel' h1] at this
      rw [h2] at this
      exact absurd this (by simp)
  · obtain ⟨g1, g2⟩ := (findSub_iff pat (text.drop lo) k).mp h
    simp only [Option.map_some', Option.some.injEq]
    constructor
    · intro hh
      obtain rfl : k + lo = i := hh
      refine ⟨by omega, by rw [Nat.add_comm k lo, ← hdrop]; exact g1, ?_⟩
      intro j hj1 hj2
      have := g2 (j - lo) (by omega)
      rw [hdrop] at this
      rwa [Nat.add_sub_cancel' hj1] at this
    · rintro ⟨h1, h2, h3⟩
      have hik : i = k + lo := by
        by_contra hne
        rcases Nat.lt_or_ge i (k + lo) with hlt | hge
        · have := g2 (i - lo) (by omega)
          rw [hdrop, Nat.add_sub_cancel' h1] at this
          rw [h2] at this
          exact absurd this (by simp)
        · have hklo : lo ≤ k + lo := by omega
          have hfalse2 := h3 (k + lo) hklo (by omega)
          rw [hdrop, Nat.add_comm lo k] at g1
          rw [hfalse2] at g1
          exact absurd g1 (by simp)
      rw [hik]

theorem dropP_idem (p : Char → Bool) (l : List Char) :
    dropP p (dropP p l) = dropP p l := by
  induction l with
  | nil => rfl
  | cons c cs ih =>
    rw [dropP]
    split
    · exact ih
    · rename_i h
      rw [dropP, if_neg h]

theorem dropP_head_false (p : Char → Bool) :
    ∀ {l c cs}, dropP p l = c :: cs → p c = false := by
  intro l
  induction l with
  | nil => intro c cs h; exact absurd h (by simp [dropP])
  | cons d ds ih =>
    intro c cs h
    rw [dropP] at h
    split at h
    · exact ih h
    · rename_i hd
      injection h with h1 h2
      subst h1
      revert hd; cases p d <;> simp

theorem dropP_id_of_head (p : Char → Bool) {l : List Char}
    (h : ∀ c cs, l = c :: cs → p c = false) : dropP p l = l := by
  cases l with
  | nil => rfl
  | cons c cs =>
    rw [dropP, if_neg]
    rw [h c cs rfl]
    simp

theorem dropP_getLast (p : Char → Bool) :
    ∀ {l : List Char}, dropP p l ≠ [] → (dropP p l).getLast? = l.getLast? := by
  intro l
  induction l with
  | nil => intro h; exact absurd rfl h
  | cons c cs ih =>
    intro h
    rw [dropP] at h ⊢
    by_cases hc : p c = true
    · rw [if_pos hc] at h ⊢
      have hcs : cs ≠ [] := by
        intro hnil
        rw [hnil] at h
        simp [dropP] at h
      cases cs with
      | nil => exact absurd rfl hcs
      | cons d ds =>
        rw [List.getLast?_cons_cons]
        exact ih h
    · rw [if_neg hc]

theorem trimWith_idem (p : Char → Bool) (l : List Char) :
    trimWith p (trimWith p l) = trimWith p l := by
  unfold trimWith
  set a := dropP p l with ha
  set b := dropP p a.reverse with hb
  by_cases hbnil : b = []
  · rw [hbnil]
    rfl
  · have hbnil2 : dropP p a.reverse ≠ [] := by rw [← hb]; exact hbnil
    have hid : dropP p b.reverse = b.reverse := by
      apply dropP_id_of_head
      intro c cs hc
      have hlast : b.getLast? = some c := by
        rw [← List.head?_reverse, hc]
        rfl
      rw [hb, dropP_getLast p hbnil2, List.getLast?_reverse] at hlast
      cases hd : a with
      | nil => rw [hd] at hlast; exact absurd hlast (by simp)
      | cons d ds =>
        rw [hd] at hlast
        simp only [List.head?_cons, Option.some.injEq] at hlast
        subst hlast
        have hdl : dropP p l = d :: ds := by rw [← ha]; exact hd
        exact dropP_head_false p hdl
    rw [hid, List.reverse_reverse]
    have hidem : dropP p b = b := by
      rw [hb]
      exact dropP_idem p a.reverse
    rw [hidem]

theorem dropP_of_all (p : Char → Bool) :
    ∀ {l : List Char}, (∀ c ∈ l, p c = true) → dropP p l = [] := by
  intro l
  induction l with
  | nil => intro _; rfl
  | cons c cs ih =>
    intro h
    rw [dropP, if_pos (h c (by simp))]
    exact ih (fun d hd => h d (by simp [hd]))

theorem trimWith_of_all (p : Char → Bool) {l : List Char}
    (h : ∀ c ∈ l, p c = true) : trimWith p l = [] := by
  unfold trimWith
  rw [dropP_of_all p h]
  rfl

theorem getCodeBlock_eq_some {text title lang t : List Char}
    (h : getCodeBlock text title lang = some t) :
    ∃ g, rawGroup text title lang = some g ∧ g ≠ [] ∧ t = trim g := by
  unfold getCodeBlock at h
  split at h
  · exact absurd h (by simp)
  · rename_i g hg
    split at h
    · exact absurd h (by simp)
    · rename_i hnil
      simp only [Option.some.injEq] at h
      exact ⟨g, hg, by simpa [List.isEmpty_iff] using hnil, h.symm⟩

theorem getCommentRange_eq_some {text key t : List Char}
    (h : getCommentRange text key = some t) :
    ∃ g, commentGroup text key = some g ∧ g ≠ [] ∧ t = trim g := by
  unfold getCommentRange at h
  split at h
  · exact absurd h (by simp)
  · rename_i g hg
    split at h
    · exact absurd h (by simp)
    · rename_i hnil
      simp only [Option.some.injEq] at h
      exact ⟨g, hg, by simpa [List.isEmpty_iff] using hnil, h.symm⟩

theorem runAction_challenge {parse : List Char → Option Yv} {inp : ActionInput} {iss : Issue}
    (hiss : inp.issue = some iss)
    (hlab : iss.labels.any (fun l => l == "new-challenge".data) = true) :
    runAction parse inp = runChallenge parse inp iss (localeOf iss) := by
  unfold runAction
  rw [hiss]
  simp only [hlab, if_true]

theorem runChallenge_invalid {parse : List Char → Option Yv} {inp : ActionInput} {iss : Issue}
    {loc : Loc}
    (h : (optFalsyStr (getCommentRange iss.body "question".data)
        || optFalsyStr (getCodeBlock iss.body (Messages.template loc) "ts".data)
        || optFalsyStr (getCodeBlock iss.body (Messages.tests loc) "ts".data)
        || optFalsy (parsedInfo parse iss.body loc)) = true) :
    runChallenge parse inp iss loc = invalidOutcome loc inp := by
  unfold runChallenge
  rw [if_pos h]

theorem runChallenge_valid {parse : List Char → Option Yv} {inp : ActionInput} {iss : Issue}
    {loc : Loc} {iv : Yv}
    (hq : optFalsyStr (getCommentRange iss.body "question".data) = false)
    (htpl : optFalsyStr (getCodeBlock iss.body (Messages.template loc) "ts".data) = false)
    (htst : optFalsyStr (getCodeBlock iss.body (Messages.tests loc) "ts".data) = false)
    (hinfo : parsedInfo parse iss.body loc = some iv)
    (htru : truthy iv = true) :
    runChallenge parse inp iss loc = runValid inp iss loc iv := by
  unfold runChallenge
  rw [hq, htpl, htst, hinfo]
  simp [optFalsy, htru]

theorem runValid_ok {inp : ActionInput} {iss : Issue} {loc : Loc} {iv iv2 : Yv}
    {t : List Char} {u : User}
    (hstep : authorStep iv iss.userLogin inp.user = some iv2)
    (htitle : yGet iv2 "title".data = some (Yv.vstr t))
    (huser : inp.user = some u) :
    runValid inp iss loc iv = validOutcome inp iss loc iv2 t u := by
  simp only [runValid, hstep]
  simp only [htitle, huser]

/-- Number of comments on the issue authored by the automation identity. -/
def countBot (cs : List CommentRec) : Nat :=
  (cs.filter (fun c => c.userLogin == botLogin)).length

/-- Repeated invocations of the Comment Notifier with successive bodies
(and fresh ids for created comments). -/
def applyNotifications (comments : List CommentRec) : List (List Char × Nat) → List CommentRec
  | [] => comments
  | (b, i) :: rest => applyNotifications (updateCommentStep comments b i).1 rest

theorem countBot_map_id (comments : List CommentRec) (f : CommentRec → CommentRec)
    (hf : ∀ x, (f x).userLogin = x.userLogin) :
    countBot (comments.map f) = countBot comments := by
  induction comments with
  | nil => rfl
  | cons x xs ih =>
    unfold countBot at ih ⊢
    simp only [List.map_cons, List.filter_cons]
    rw [hf x]
    by_cases hc : (x.userLogin == botLogin) = true
    · rw [if_pos hc, if_pos hc]
      simp only [List.length_cons, ih]
    · rw [if_neg hc, if_neg hc]
      exact ih

theorem countBot_step (comments : List CommentRec) (b : List Char) (i : Nat)
    (h : countBot comments ≤ 1) : countBot (updateCommentStep comments b i).1 ≤ 1 := by
  unfold updateCommentStep
  rcases hf : comments.find? (fun c => c.userLogin == botLogin) with _ | c
  · have hall := List.find?_eq_none.mp hf
    have hzero : countBot comments = 0 := by
      unfold countBot
      rw [List.length_eq_zero]
      rw [List.filter_eq_nil_iff]
      exact hall
    rw [hf]
    show countBot (comments ++ [⟨i, botLogin, b⟩]) ≤ 1
    unfold countBot at hzero ⊢
    rw [List.filter_append, List.length_append, hzero]
    simp
  · rw [hf]
    show countBot (comments.map (fun x => if x.id == c.id then ⟨x.id, x.userLogin, b⟩ else x)) ≤ 1
    rw [countBot_map_id]
    · exact h
    · intro x
      by_cases hid : (x.id == c.id) = true
      · rw [if_pos hid]
      · rw [if_neg hid]

theorem countBot_applyNotifications :
    ∀ (notes : List (List Char × Nat)) (comments : List CommentRec),
      countBot comments ≤ 1 → countBot (applyNotifications comments notes) ≤ 1
  | [], _, h => h
  | (b, i) :: rest, comments, h =>
    countBot_applyNotifications rest _ (countBot_step comments b i h)

/-- C4: the Comment Notifier is an upsert.  When some comment on the
issue is authored by the automation identity, the first such comment's
body is replaced in place (same ids, same length, an `updateComment`
call, no creation); otherwise exactly one new automation comment is
appended.  Consequently, starting from at most one automation comment,
any number of notifier invocations leaves at most one automation
comment on the issue. -/
theorem c4_comment_notifier_upsert (comments : List CommentRec) (body : List Char) (newId : Nat) :
    (∀ c, comments.find? (fun x => x.userLogin == botLogin) = some c →
      (updateCommentStep comments body newId).1
          = comments.map (fun x => if x.id == c.id then ⟨x.id, x.userLogin, body⟩ else x) ∧
      (updateCommentStep comments body newId).2 = Op.updateComment c.id body ∧
      ((updateCommentStep comments body newId).1).length = comments.length) ∧
    (comments.find? (fun x => x.userLogin == botLogin) = none →
      (updateCommentStep comments body newId).1 = comments ++ [⟨newId, botLogin, body⟩] ∧
      (updateCommentStep comments body newId).2 = Op.createComment body) ∧
    (countBot comments ≤ 1 →
      ∀ notes : List (List Char × Nat), countBot (applyNotifications comments notes) ≤ 1) := by
  refine ⟨?_, ?_, ?_⟩
  · intro c hc
    simp [updateCommentStep, hc]
  · intro hc
    simp [updateCommentStep, hc]
  · intro hcb notes
    exact countBot_applyNotifications notes comments hcb

/-- Witness for C4 at concrete inputs: updating in place when a bot
comment exists, and the at-most-one invariant over two invocations from
an empty comment list. -/
theorem c4_comment_notifier_upsert_witness :
    ((updateCommentStep [⟨1, botLogin, "old".data⟩] "new".data 9).2
        = Op.updateComment (⟨1, botLogin, "old".data⟩ : CommentRec).id "new".data) ∧
    countBot (applyNotifications [] [("a".data, 1), ("b".data, 2)]) ≤ 1 :=
  ⟨((c4_comment_notifier_upsert [⟨1, botLogin, "old".data⟩] "new".data 9).1
      ⟨1, botLogin, "old".data⟩ rfl).2.1,
    (c4_comment_notifier_upsert [] "x".data 0).2.2 (by decide) [("a".data, 1), ("b".data, 2)]⟩

/-- The `(head, title)` pair of a pull-request creation. -/
def Op.createPull? : Op → Option (List Char × List Char)
  | Op.createPull h t => some (h, t)
  | _ => none

/-- The branch of a commit push. -/
def Op.pushHead? : Op → Option (List Char)
  | Op.pushCommit h _ _ _ _ _ => some h
  | _ => none

/-- The destination directory of a commit push. -/
def Op.pushDir? : Op → Option (List Char)
  | Op.pushCommit _ _ d _ _ _ => some d
  | _ => none

/-- The `fresh` flag of a commit push. -/
def Op.pushFresh? : Op → Option Bool
  | Op.pushCommit _ f _ _ _ _ => some f
  | _ => none

/-- The committed metadata of a commit push. -/
def Op.pushInfo? : Op → Option Yv
  | Op.pushCommit _ _ _ iv _ _ => some iv
  | _ => none

/-- The commit-author name of a commit push. -/
def Op.pushName? : Op → Option (Option (List Char))
  | Op.pushCommit _ _ _ _ n _ => some n
  | _ => none

/-- The body of a posted (created or updated) comment. -/
def Op.postedBody? : Op → Option (List Char)
  | Op.createComment b => some b
  | Op.updateComment _ b => some b
  | _ => none

/-- Is this operation a user-profile lookup? -/
def Op.isGetUser : Op → Bool
  | Op.getUser _ => true
  | _ => false

/-- Is this operation a pull-request listing? -/
def Op.isListPulls : Op → Bool
  | Op.listPulls => true
  | _ => false

/-- Is this operation a commit push? -/
def Op.isPush : Op → Bool
  | Op.pushCommit _ _ _ _ _ _ => true
  | _ => false

/-- Is this operation a pull-request creation? -/
def Op.isCreatePull : Op → Bool
  | Op.createPull _ _ => true
  | _ => false

/-- Pull-request creations in a trace: `(head, title)` pairs. -/
def createPulls (o : Outcome) : List (List Char × List Char) :=
  o.ops.filterMap Op.createPull?

/-- Branches pushed to in a trace. -/
def pushHeads (o : Outcome) : List (List Char) :=
  o.ops.filterMap Op.pushHead?

/-- Destination directories of the pushes in a trace. -/
def pushDirs (o : Outcome) : List (List Char) :=
  o.ops.filterMap Op.pushDir?

/-- `fresh` flags of the pushes in a trace. -/
def pushFresh (o : Outcome) : List Bool :=
  o.ops.filterMap Op.pushFresh?

/-- Final metadata values committed by the pushes in a trace. -/
def pushInfos (o : Outcome) : List Yv :=
  o.ops.filterMap Op.pushInfo?

/-- Commit-author names of the pushes in a trace. -/
def pushNames (o : Outcome) : List (Option (List Char)) :=
  o.ops.filterMap Op.pushName?

/-- Comment bodies posted (created or updated) in a trace. -/
def postedBodies (o : Outcome) : List (List Char) :=
  o.ops.filterMap Op.postedBody?

/-- Does the trace contain a user-profile lookup? -/
def hasGetUser (o : Outcome) : Bool := o.ops.any Op.isGetUser

/-- Does the trace contain a pull-request listing? -/
def hasListPulls (o : Outcome) : Bool := o.ops.any Op.isListPulls

/-- Does the trace contain a commit push? -/
def hasPush (o : Outcome) : Bool := o.ops.any Op.isPush

/-- Does the trace contain a pull-request creation? -/
def hasCreatePull (o : Outcome) : Bool := o.ops.any Op.isCreatePull

theorem updateCommentStep_snd (cs : List CommentRec) (b : List Char) (i : Nat) :
    (updateCommentStep cs b i).2 = Op.createComment b ∨
    ∃ cid, (updateCommentStep cs b i).2 = Op.updateComment cid b := by
  unfold updateCommentStep
  split
  · right; exact ⟨_, rfl⟩
  · left; rfl

/-- C1: on a valid submission for issue 3 with no automation PR open,
the run creates exactly one pull request titled `#3 - Foo` — but the
status comment it posts renders the `issue_update_reply` ("Pull Request
updated") template, not the `issue_reply` ("Pull Request created")
template, which `createMessageBody` never uses although the source
defines it for both locales.  This evaluates the embedded action at the
failing input of the C1 code bug. -/
theorem c1_created_path_posts_updated_message :
    (runAction parseA inpA).result = RunResult.created 7 ∧
    createPulls (runAction parseA inpA) = [("pulls/3".data, "#3 - Foo".data)] ∧
    postedBodies (runAction parseA inpA) = ["#7 - Pull Request updated.\n\n  ".data] ∧
    replaceFirst (Messages.issueUpdateReply Loc.en) "{0}".data (natStr 7)
      = "#7 - Pull Request updated.".data ∧
    replaceFirst (Messages.issueReply Loc.en) "{0}".data (natStr 7)
      = "#7 - Pull Request created.".data ∧
    startsW "#7 - Pull Request created.".data
      ((postedBodies (runAction parseA inpA)).headD []) = false := by
  refine ⟨by rfl, by decide, by decide, by decide, by decide, by decide⟩

/-- `pat` occurs in `text` at index `i`, and at no earlier index that is
at least `lo` — the position a leftmost/lazy regex scan selects. -/
def firstOccFrom (text pat : List Char) (lo i : Nat) : Prop :=
  lo ≤ i ∧ occursAtB text pat i = true ∧
    ∀ j, lo ≤ j → j < i → occursAtB text pat j = false

theorem findSubFrom_iff_first (text pat : List Char) (lo i : Nat) :
    findSubFrom text pat lo = some i ↔ firstOccFrom text pat lo i :=
  findSubFrom_iff text pat lo i

theorem rawGroup_iff (text title lang g : List Char) :
    rawGroup text title lang = some g ↔
      ∃ s p q, firstOccFrom text ("## ".data ++ title) 0 s ∧
        firstOccFrom text ("```".data ++ lang) (s + ("## ".data ++ title).length) p ∧
        firstOccFrom text "```".data (p + ("```".data ++ lang).length) q ∧
        g = sliceIdx text (p + ("```".data ++ lang).length) q := by
  simp only [rawGroup, Option.bind_eq_some, Option.map_eq_some']
  constructor
  · rintro ⟨s, hs, p, hp, q, hq, rfl⟩
    exact ⟨s, p, q, (findSubFrom_iff_first text _ 0 s).mp hs,
      (findSubFrom_iff_first text _ _ p).mp hp,
      (findSubFrom_iff_first text _ _ q).mp hq, rfl⟩
  · rintro ⟨s, p, q, h1, h2, h3, rfl⟩
    exact ⟨s, (findSubFrom_iff_first text _ 0 s).mpr h1, p,
      (findSubFrom_iff_first text _ _ p).mpr h2, q,
      (findSubFrom_iff_first text _ _ q).mpr h3, rfl⟩

theorem commentGroup_iff (text key g : List Char) :
    commentGroup text key = some g ↔
      ∃ s q, firstOccFrom text ("<!--".data ++ key ++ "-start-->".data) 0 s ∧
        firstOccFrom text ("<!--".data ++ key ++ "-end-->".data)
          (s + ("<!--".data ++ key ++ "-start-->".data).length) q ∧
        g = sliceIdx text (s + ("<!--".data ++ key ++ "-start-->".data).length) q := by
  simp only [commentGroup, Option.bind_eq_some, Option.map_eq_some']
  constructor
  · rintro ⟨s, hs, q, hq, rfl⟩
    exact ⟨s, q, (findSubFrom_iff_first text _ 0 s).mp hs,
      (findSubFrom_iff_first text _ _ q).mp hq, rfl⟩
  · rintro ⟨s, q, h1, h2, rfl⟩
    exact ⟨s, (findSubFrom_iff_first text _ 0 s).mpr h1, q,
      (findSubFrom_iff_first text _ _ q).mpr h2, rfl⟩

theorem getCodeBlock_iff (text title lang t : List Char) :
    getCodeBlock text title lang = some t ↔
      ∃ s p q, firstOccFrom text ("## ".data ++ title) 0 s ∧
        firstOccFrom text ("```".data ++ lang) (s + ("## ".data ++ title).length) p ∧
        firstOccFrom text "```".data (p + ("```".data ++ lang).length) q ∧
        sliceIdx text (p + ("```".data ++ lang).length) q ≠ [] ∧
        t = trim (sliceIdx text (p + ("```".data ++ lang).length) q) := by
  constructor
  · intro h
    obtain ⟨g, hg, hne, rfl⟩ := getCodeBlock_eq_some h
    obtain ⟨s, p, q, h1, h2, h3, rfl⟩ := (rawGroup_iff text title lang g).mp hg
    exact ⟨s, p, q, h1, h2, h3, hne, rfl⟩
  · rintro ⟨s, p, q, h1, h2, h3, hne, rfl⟩
    have hg : rawGroup text title lang
        = some (sliceIdx text (p + ("```".data ++ lang).length) q) :=
      (rawGroup_iff text title lang _).mpr ⟨s, p, q, h1, h2, h3, rfl⟩
    unfold getCodeBlock
    simp only [hg]
    rw [if_neg (by simpa [List.isEmpty_iff] using hne)]

theorem getCommentRange_iff (text key t : List Char) :
    getCommentRange text key = some t ↔
      ∃ s q, firstOccFrom text ("<!--".data ++ key ++ "-start-->".data) 0 s ∧
        firstOccFrom text ("<!--".data ++ key ++ "-end-->".data)
          (s + ("<!--".data ++ key ++ "-start-->".data).length) q ∧
        sliceIdx text (s + ("<!--".data ++ key ++ "-start-->".data).length) q ≠ [] ∧
        t = trim (sliceIdx text (s + ("<!--".data ++ key ++ "-start-->".data).length) q) := by
  constructor
  · intro h
    obtain ⟨g, hg, hne, rfl⟩ := getCommentRange_eq_some h
    obtain ⟨s, q, h1, h2, rfl⟩ := (commentGroup_iff text key g).mp hg
    exact ⟨s, q, h1, h2, hne, rfl⟩
  · rintro ⟨s, q, h1, h2, hne, rfl⟩
    have hg : commentGroup text key
        = some (sliceIdx text (s + ("<!--".data ++ key ++ "-start-->".data).length) q) :=
      (commentGroup_iff text key _).mpr ⟨s, q, h1, h2, rfl⟩
    unfold getCommentRange
    simp only [hg]
    rw [if_neg (by simpa [List.isEmpty_iff] using hne)]

/-- C6 counterexample: on `"## Template```ts```"` the source regex of
`getCodeBlock` matches — the heading occurs at 0, the tagged fence at
11 and the closing fence at 16 — with an empty captured group, so "the
matched content trimmed" is the empty string; yet the routine returns
null because `match[1]` is falsy on the empty string. -/
theorem c6_counterexample_empty_match_returns_null :
    getCodeBlock "## Template```ts```".data "Template".data "ts".data = none ∧
    occursAtB "## Template```ts```".data ("## ".data ++ "Template".data) 0 = true ∧
    occursAtB "## Template```ts```".data ("```".data ++ "ts".data) 11 = true ∧
    occursAtB "## Template```ts```".data "```".data 16 = true ∧
    sliceIdx "## Template```ts```".data 16 16 = [] := by decide

/-- C6 amended: both extraction routines match lazily and leftmost —
they return `some t` exactly when the heading (resp. start marker)
first occurs at some index, the opening fence (resp. end marker) first
occurs after it, the closing fence first occurs after that, the
captured slice between them is non-empty, and `t` is that slice trimmed
of surrounding whitespace; they return null (never throwing) when no
match exists or the first match's captured content is empty. -/
theorem c6_extraction_routines_first_occurrence (text title lang key t : List Char) :
    (getCodeBlock text title lang = some t ↔
      ∃ s p q, firstOccFrom text ("## ".data ++ title) 0 s ∧
        firstOccFrom text ("```".data ++ lang) (s + ("## ".data ++ title).length) p ∧
        firstOccFrom text "```".data (p + ("```".data ++ lang).length) q ∧
        sliceIdx text (p + ("```".data ++ lang).length) q ≠ [] ∧
        t = trim (sliceIdx text (p + ("```".data ++ lang).length) q)) ∧
    (getCommentRange text key = some t ↔
      ∃ s q, firstOccFrom text ("<!--".data ++ key ++ "-start-->".data) 0 s ∧
        firstOccFrom text ("<!--".data ++ key ++ "-end-->".data)
          (s + ("<!--".data ++ key ++ "-start-->".data).length) q ∧
        sliceIdx text (s + ("<!--".data ++ key ++ "-start-->".data).length) q ≠ [] ∧
        t = trim (sliceIdx text (s + ("<!--".data ++ key ++ "-start-->".data).length) q)) :=
  ⟨getCodeBlock_iff text title lang t, getCommentRange_iff text key t⟩

/-- Witness for C6: instantiating the characterization on a concrete
body and extracting the matched positions of its unique match. -/
theorem c6_extraction_routines_first_occurrence_witness :
    ∃ s p q, firstOccFrom "## Info\n```yaml\nfoo\n```".data ("## ".data ++ "Info".data) 0 s ∧
      firstOccFrom "## Info\n```yaml\nfoo\n```".data ("```".data ++ "yaml".data)
        (s + ("## ".data ++ "Info".data).length) p ∧
      firstOccFrom "## Info\n```yaml\nfoo\n```".data "```".data
        (p + ("```".data ++ "yaml".data).length) q ∧
      sliceIdx "## Info\n```yaml\nfoo\n```".data (p + ("```".data ++ "yaml".data).length) q ≠ [] ∧
      "foo".data = trim (sliceIdx "## Info\n```yaml\nfoo\n```".data
        (p + ("```".data ++ "yaml".data).length) q) :=
  (c6_extraction_routines_first_occurrence "## Info\n```yaml\nfoo\n```".data
      "Info".data "yaml".data "question".data "foo".data).1.mp (by decide)

/-- C9 counterexample: code-block extraction is not idempotent in the
literal sense — the trimmed output of a successful extraction contains
neither the heading nor the fences, so re-extracting from it yields
null, not the same text. -/
theorem c9_counterexample_reextract_from_output :
    getCodeBlock "## Template\n```ts\nfoo\n```".data "Template".data "ts".data
        = some "foo".data ∧
    getCodeBlock "foo".data "Template".data "ts".data = none ∧
    (none : Option (List Char)) ≠ some "foo".data := by decide

/-- C9 amended: what is idempotent is the trimming — the extraction
routines return already-trimmed text, so re-trimming the extracted
output yields the same text (the output is a fixpoint of `trim`). -/
theorem c9_extraction_output_trim_fixpoint (text title lang key t t2 : List Char) :
    (getCodeBlock text title lang = some t → trim t = t) ∧
    (getCommentRange text key = some t2 → trim t2 = t2) := by
  constructor
  · intro h
    obtain ⟨g, _, _, rfl⟩ := getCodeBlock_eq_some h
    exact trimWith_idem isWs g
  · intro h
    obtain ⟨g, _, _, rfl⟩ := getCommentRange_eq_some h
    exact trimWith_idem isWs g

/-- Witness for C9's amended statement on a concrete body. -/
theorem c9_extraction_output_trim_fixpoint_witness :
    trim "foo".data = "foo".data :=
  (c9_extraction_output_trim_fixpoint "## Template\n```ts\nfoo\n```".data
      "Template".data "ts".data "question".data "foo".data "x".data).1 (by decide)

/-- Metadata with a tag-like title, as for the spec's `Pick<T>` example. -/
def infoMapC : Yv :=
  .vmap [("title".data, .vstr "Pick<T>".data), ("difficulty".data, .vstr "easy".data)]

/-- YAML oracle for the `Pick<T>` example. -/
def parseC : List Char → Option Yv :=
  fun s => if s == "info".data then some infoMapC else none

/-- Issue #42 carrying the `Pick<T>` submission. -/
def issC : Issue := ⟨42, bodyA, ["new-challenge".data], "alice".data⟩

/-- Invocation input for the `Pick<T>` example. -/
def inpC : ActionInput := ⟨some issC, some userA, [], [], 7, 99, [], []⟩

/-- `infoMapC` after the author step populated the absent author. -/
def infoMapC2 : Yv :=
  .vmap [("title".data, .vstr "Pick<T>".data), ("difficulty".data, .vstr "easy".data),
    ("author".data, .vmap [("github".data, .vstr "alice".data),
      ("name".data, .vstr "Alice".data)])]

/-- C3 counterexample: for issue 42, difficulty `easy`, title `Pick<T>`
the destination directory is `questions/42-easy-pick` — the greedy
`/<.*>/g` replacement removes the whole `<T>` (including the `T`), so
the claimed `questions/42-easy-pickt` is wrong. -/
theorem c3_counterexample_pick_t_directory :
    dirFor 42 "easy".data "Pick<T>".data = "questions/42-easy-pick".data ∧
    pushDirs (runAction parseC inpC) = ["questions/42-easy-pick".data] ∧
    "questions/42-easy-pick".data ≠ "questions/42-easy-pickt".data := by decide

/-- C3 amended: for every valid submission the destination directory of
the single push is the pure function `dirFor` of the issue number, the
difficulty and the title alone (dots dashed and tag-like `<...>`
substrings removed before slugification); for issue 42, difficulty
`easy`, title `Pick<T>` that directory is `questions/42-easy-pick`. -/
theorem c3_destination_directory_pure (parse : List Char → Option Yv) (inp : ActionInput)
    (iss : Issue) (iv iv2 : Yv) (t : List Char) (u : User)
    (hiss : inp.issue = some iss)
    (hlab : iss.labels.any (fun l => l == "new-challenge".data) = true)
    (hq : optFalsyStr (getCommentRange iss.body "question".data) = false)
    (htpl : optFalsyStr (getCodeBlock iss.body (Messages.template (localeOf iss)) "ts".data)
      = false)
    (htst : optFalsyStr (getCodeBlock iss.body (Messages.tests (localeOf iss)) "ts".data)
      = false)
    (hinfo : parsedInfo parse iss.body (localeOf iss) = some iv)
    (htru : truthy iv = true)
    (hstep : authorStep iv iss.userLogin inp.user = some iv2)
    (htitle : yGet iv2 "title".data = some (Yv.vstr t))
    (huser : inp.user = some u) :
    pushDirs (runAction parse inp)
        = [dirFor iss.number (jsStr (yGet iv2 "difficulty".data)) t] ∧
    dirFor 42 "easy".data "Pick<T>".data = "questions/42-easy-pick".data := by
  constructor
  · rw [runAction_challenge hiss hlab, runChallenge_valid hq htpl htst hinfo htru,
      runValid_ok hstep htitle huser]
    simp only [validOutcome]
    split
    · rename_i ep _
      rcases updateCommentStep_snd inp.comments
          (msgBody (localeOf iss) ep.number inp.tsBadge inp.pgBadge) inp.newCommentId
          with h2 | ⟨cid, h2⟩ <;>
        rw [h2] <;> simp [pushDirs, Op.pushDir?]
    · rcases updateCommentStep_snd inp.comments
          (msgBody (localeOf iss) inp.newPrNumber inp.tsBadge inp.pgBadge) inp.newCommentId
          with h2 | ⟨cid, h2⟩ <;>
        rw [h2] <;> simp [pushDirs, Op.pushDir?]
  · decide

/-- Witness for C3's amended statement at the `Pick<T>` scenario. -/
theorem c3_destination_directory_pure_witness :
    pushDirs (runAction parseC inpC)
        = [dirFor 42 (jsStr (yGet infoMapC2 "difficulty".data)) "Pick<T>".data] ∧
    dirFor 42 "easy".data "Pick<T>".data = "questions/42-easy-pick".data :=
  c3_destination_directory_pure parseC inpC issC infoMapC infoMapC2 "Pick<T>".data userA
    rfl (by decide) (by decide) (by decide) (by decide) rfl (by decide) rfl rfl rfl

/-- The metadata of scenario A after the author step. -/
def infoMapA2 : Yv :=
  .vmap [("title".data, .vstr "Foo".data), ("difficulty".data, .vstr "easy".data),
    ("author".data, .vmap [("github".data, .vstr "alice".data),
      ("name".data, .vstr "Alice".data)])]

/-- An automation-authored open pull request for issue 3. -/
def pullE : PullReq := ⟨5, botLogin, "#3 - Old Title".data⟩

/-- Scenario A input, but with the automation PR `pullE` already open. -/
def inpE : ActionInput := ⟨some issA, some userA, [pullE], [], 7, 99, [], []⟩

/-- C5: on the valid path the PR Reconciler selects, among the open
pull requests the API returned, the first one authored by the
automation identity whose title starts with `#<no> ` (the selection
predicate `isAutomationPull`); when such a PR exists no pull request is
created and the run reports an update of that PR's number; when none
exists exactly one PR is created on branch `pulls/<no>`; and in every
case the single commit push targets branch `pulls/<no>`. -/
theorem c5_pr_reconciler_branch_and_selection (parse : List Char → Option Yv)
    (inp : ActionInput) (iss : Issue) (iv iv2 : Yv) (t : List Char) (u : User)
    (hiss : inp.issue = some iss)
    (hlab : iss.labels.any (fun l => l == "new-challenge".data) = true)
    (hq : optFalsyStr (getCommentRange iss.body "question".data) = false)
    (htpl : optFalsyStr (getCodeBlock iss.body (Messages.template (localeOf iss)) "ts".data)
      = false)
    (htst : optFalsyStr (getCodeBlock iss.body (Messages.tests (localeOf iss)) "ts".data)
      = false)
    (hinfo : parsedInfo parse iss.body (localeOf iss) = some iv)
    (htru : truthy iv = true)
    (hstep : authorStep iv iss.userLogin inp.user = some iv2)
    (htitle : yGet iv2 "title".data = some (Yv.vstr t))
    (huser : inp.user = some u) :
    (∀ p, inp.openPulls.find? (isAutomationPull iss.number) = some p →
      (p.userLogin == botLogin) = true ∧
      startsW ("#".data ++ natStr iss.number ++ " ".data) p.title = true ∧
      createPulls (runAction parse inp) = [] ∧
      (runAction parse inp).result = RunResult.updated p.number) ∧
    (inp.openPulls.find? (isAutomationPull iss.number) = none →
      createPulls (runAction parse inp)
        = [("pulls/".data ++ natStr iss.number,
            "#".data ++ natStr iss.number ++ " - ".data ++ t)] ∧
      (runAction parse inp).result = RunResult.created inp.newPrNumber) ∧
    pushHeads (runAction parse inp) = ["pulls/".data ++ natStr iss.number] := by
  have hrun : runAction parse inp = validOutcome inp iss (localeOf iss) iv2 t u := by
    rw [runAction_challenge hiss hlab, runChallenge_valid hq htpl htst hinfo htru,
      runValid_ok hstep htitle huser]
  refine ⟨?_, ?_, ?_⟩
  · intro p hp
    have hpred := List.find?_some hp
    have hpred2 : (p.userLogin == botLogin) = true ∧
        startsW ("#".data ++ natStr iss.number ++ " ".data) p.title = true := by
      simpa [isAutomationPull, Bool.and_eq_true] using hpred
    refine ⟨hpred2.1, hpred2.2, ?_, ?_⟩
    · rw [hrun]
      simp only [validOutcome, hp]
      rcases updateCommentStep_snd inp.comments
          (msgBody (localeOf iss) p.number inp.tsBadge inp.pgBadge) inp.newCommentId
          with h2 | ⟨cid, h2⟩ <;>
        rw [h2] <;> simp [createPulls, Op.createPull?]
    · rw [hrun]
      simp only [validOutcome, hp]
  · intro hp
    rw [hrun]
    simp only [validOutcome, hp]
    constructor
    · rcases updateCommentStep_snd inp.comments
          (msgBody (localeOf iss) inp.newPrNumber inp.tsBadge inp.pgBadge) inp.newCommentId
          with h2 | ⟨cid, h2⟩ <;>
        rw [h2] <;> simp [createPulls, Op.createPull?]
    · trivial
  · rw [hrun]
    simp only [validOutcome]
    split
    · rename_i ep _
      rcases updateCommentStep_snd inp.comments
          (msgBody (localeOf iss) ep.number inp.tsBadge inp.pgBadge) inp.newCommentId
          with h2 | ⟨cid, h2⟩ <;>
        rw [h2] <;> simp [pushHeads, Op.pushHead?]
    · rcases updateCommentStep_snd inp.comments
          (msgBody (localeOf iss) inp.newPrNumber inp.tsBadge inp.pgBadge) inp.newCommentId
          with h2 | ⟨cid, h2⟩ <;>
        rw [h2] <;> simp [pushHeads, Op.pushHead?]

/-- Witness for C5 at the existing-PR scenario: no PR is created, the
run reports updating PR 5, and the push targets `pulls/3`. -/
theorem c5_pr_reconciler_branch_and_selection_witness :
    createPulls (runAction parseA inpE) = [] ∧
    (runAction parseA inpE).result = RunResult.updated 5 ∧
    pushHeads (runAction parseA inpE) = ["pulls/".data ++ natStr 3] :=
  ⟨((c5_pr_reconciler_branch_and_selection parseA inpE issA infoMapA infoMapA2 "Foo".data
      userA rfl (by decide) (by decide) (by decide) (by decide) rfl (by decide) rfl rfl
      rfl).1 pullE rfl).2.2.1,
   ((c5_pr_reconciler_branch_and_selection parseA inpE issA infoMapA infoMapA2 "Foo".data
      userA rfl (by decide) (by decide) (by decide) (by decide) rfl (by decide) rfl rfl
      rfl).1 pullE rfl).2.2.2,
   (c5_pr_reconciler_branch_and_selection parseA inpE issA infoMapA infoMapA2 "Foo".data
      userA rfl (by decide) (by decide) (by decide) (by decide) rfl (by decide) rfl rfl
      rfl).2.2⟩

/-- A body whose Template block is present but whitespace-only: the
extracted template is the empty string (non-null). -/
def bodyB : List Char :=
  ("## Info\n```yaml\ninfo\n```\n## Template\n```ts\n \n```\n"
    ++ "## Test Cases\n```ts\ntest\n```\n<!--question-start-->Q<!--question-end-->").data

/-- Issue #3 carrying `bodyB`. -/
def issB : Issue := ⟨3, bodyB, ["new-challenge".data], "alice".data⟩

/-- Invocation input for `bodyB`. -/
def inpB : ActionInput := ⟨some issB, some userA, [], [], 7, 99, [], []⟩

/-- C2 counterexample: on `bodyB` the extracted `question`, `template`
and `tests` are all non-null and the info block parses to a non-null
structured value, yet the gate declares the submission invalid — the
template extracted from a whitespace-only block is the empty string,
which is falsy in JavaScript.  So validity is not equivalent to the
four values being non-null. -/
theorem c2_counterexample_nonnull_but_invalid :
    getCommentRange bodyB "question".data = some "Q".data ∧
    getCodeBlock bodyB "Template".data "ts".data = some [] ∧
    getCodeBlock bodyB "Test Cases".data "ts".data = some "test".data ∧
    parsedInfo parseA bodyB Loc.en = some infoMapA ∧
    (runAction parseA inpB).result = RunResult.invalid ∧
    hasGetUser (runAction parseA inpB) = false := by
  refine ⟨by decide, by decide, by decide, by rfl, by rfl, by decide⟩

/-- C2 amended: for every labelled issue, the run halts as invalid
exactly when one of `question`, `template`, `tests` is null or the
empty string, or the info block parsed to an undefined or falsy value;
and on the invalid path the whole trace is the invalid-format comment
upsert — no user lookup, no pull listing, no commit push and no PR
creation occurs. -/
theorem c2_validity_gate (parse : List Char → Option Yv) (inp : ActionInput) (iss : Issue)
    (hiss : inp.issue = some iss)
    (hlab : iss.labels.any (fun l => l == "new-challenge".data) = true) :
    ((runAction parse inp).result = RunResult.invalid ↔
      (optFalsyStr (getCommentRange iss.body "question".data)
        || optFalsyStr (getCodeBlock iss.body (Messages.template (localeOf iss)) "ts".data)
        || optFalsyStr (getCodeBlock iss.body (Messages.tests (localeOf iss)) "ts".data)
        || optFalsy (parsedInfo parse iss.body (localeOf iss))) = true) ∧
    ((runAction parse inp).result = RunResult.invalid →
      runAction parse inp = invalidOutcome (localeOf iss) inp ∧
      hasGetUser (runAction parse inp) = false ∧
      hasListPulls (runAction parse inp) = false ∧
      hasPush (runAction parse inp) = false ∧
      hasCreatePull (runAction parse inp) = false) := by
  have hch : runAction parse inp = runChallenge parse inp iss (localeOf iss) :=
    runAction_challenge hiss hlab
  by_cases hg : (optFalsyStr (getCommentRange iss.body "question".data)
      || optFalsyStr (getCodeBlock iss.body (Messages.template (localeOf iss)) "ts".data)
      || optFalsyStr (getCodeBlock iss.body (Messages.tests (localeOf iss)) "ts".data)
      || optFalsy (parsedInfo parse iss.body (localeOf iss))) = true
  · rw [hch, runChallenge_invalid hg]
    refine ⟨?_, ?_⟩
    · simp only [hg, iff_true]
      rfl
    · intro _
      refine ⟨rfl, ?_, ?_, ?_, ?_⟩ <;>
        simp only [invalidOutcome] <;>
        rcases updateCommentStep_snd inp.comments
          (Messages.issueInvalidReply (localeOf iss)) inp.newCommentId
          with h2 | ⟨cid, h2⟩ <;>
        rw [h2] <;>
        simp [hasGetUser, hasListPulls, hasPush, hasCreatePull,
          Op.isGetUser, Op.isListPulls, Op.isPush, Op.isCreatePull]
  · have hg2 : (optFalsyStr (getCommentRange iss.body "question".data)
        || optFalsyStr (getCodeBlock iss.body (Messages.template (localeOf iss)) "ts".data)
        || optFalsyStr (getCodeBlock iss.body (Messages.tests (localeOf iss)) "ts".data)
        || optFalsy (parsedInfo parse iss.body (localeOf iss))) = false := by
      revert hg
      cases (optFalsyStr (getCommentRange iss.body "question".data)
        || optFalsyStr (getCodeBlock iss.body (Messages.template (localeOf iss)) "ts".data)
        || optFalsyStr (getCodeBlock iss.body (Messages.tests (localeOf iss)) "ts".data)
        || optFalsy (parsedInfo parse iss.body (localeOf iss))) <;> simp
    rw [Bool.or_eq_false_iff, Bool.or_eq_false_iff, Bool.or_eq_false_iff] at hg2
    obtain ⟨⟨⟨hq, htpl⟩, htst⟩, hinfo0⟩ := hg2
    rcases hpi : parsedInfo parse iss.body (localeOf iss) with _ | iv
    · rw [hpi] at hinfo0
      exact absurd hinfo0 (by simp [optFalsy])
    · have htru : truthy iv = true := by
        rw [hpi] at hinfo0
        simpa [optFalsy] using hinfo0
      rw [hch, runChallenge_valid hq htpl htst hpi htru]
      have hres : (runValid inp iss (localeOf iss) iv).result ≠ RunResult.invalid := by
        unfold runValid
        split
        · simp
        · split
          · simp only [validOutcome]
            split <;> simp
          · simp
      refine ⟨?_, ?_⟩
      · constructor
        · intro hres2
          exact absurd hres2 hres
        · intro hgt
          rw [← hpi] at hgt
          exact absurd hgt hg
      · intro hres2
        exact absurd hres2 hres

/-- Witness for C2 at the whitespace-template scenario: the run is
invalid and performs no user lookup, push or PR creation. -/
theorem c2_validity_gate_witness :
    runAction parseA inpB = invalidOutcome (localeOf issB) inpB ∧
    hasGetUser (runAction parseA inpB) = false ∧
    hasListPulls (runAction parseA inpB) = false ∧
    hasPush (runAction parseA inpB) = false ∧
    hasCreatePull (runAction parseA inpB) = false :=
  (c2_validity_gate parseA inpB issB rfl (by decide)).2 (by rfl)

/-- C10: when a required section's fenced block is present but its
content is empty or whitespace-only, `getCodeBlock` returns null (empty
captured group) or the empty string (whitespace-only group trimmed),
and the gate then treats the submission as invalid with exactly the
same outcome as when the section is absent — only the invalid-format
comment upsert happens. -/
theorem c10_empty_section_invalid_like_absent (text title lang g : List Char)
    (parse : List Char → Option Yv) (inp : ActionInput) (iss : Issue)
    (hiss : inp.issue = some iss)
    (hlab : iss.labels.any (fun l => l == "new-challenge".data) = true) :
    (rawGroup text title lang = some g → (∀ c ∈ g, isWs c = true) →
      getCodeBlock text title lang = none ∨ getCodeBlock text title lang = some []) ∧
    ((optFalsyStr (getCodeBlock iss.body (Messages.template (localeOf iss)) "ts".data) = true ∨
      optFalsyStr (getCodeBlock iss.body (Messages.tests (localeOf iss)) "ts".data) = true ∨
      optFalsyStr (getCommentRange iss.body "question".data) = true ∨
      (optFalsyStr (getCodeBlock iss.body (Messages.info (localeOf iss)) "yaml".data) = true ∧
        parse [] = none)) →
      runAction parse inp = invalidOutcome (localeOf iss) inp) := by
  constructor
  · intro hg hws
    unfold getCodeBlock
    rw [hg]
    cases g with
    | nil => left; rfl
    | cons c cs =>
      right
      have ht : trim (c :: cs) = [] := trimWith_of_all isWs hws
      simp [ht]
  · intro hdisj
    rw [runAction_challenge hiss hlab]
    apply runChallenge_invalid
    rcases hdisj with h | h | h | ⟨h, hp⟩
    · rw [h]; simp
    · rw [h]; simp
    · rw [h]; simp
    · have hpi : parsedInfo parse iss.body (localeOf iss) = none := by
        unfold parsedInfo
        rcases hir : getCodeBlock iss.body (Messages.info (localeOf iss)) "yaml".data
          with _ | s
        · simpa using hp
        · rw [hir] at h
          have hs : s = [] := by simpa [optFalsyStr, List.isEmpty_iff] using h
          subst hs
          simpa using hp
      rw [hpi]
      simp [optFalsy]

/-- Witness for C10 at the whitespace-template scenario `bodyB`. -/
theorem c10_empty_section_invalid_like_absent_witness :
    (getCodeBlock bodyB "Template".data "ts".data = none ∨
      getCodeBlock bodyB "Template".data "ts".data = some []) ∧
    runAction parseA inpB = invalidOutcome (localeOf issB) inpB :=
  ⟨(c10_empty_section_invalid_like_absent bodyB "Template".data "ts".data "\n \n".data
      parseA inpB issB rfl (by decide)).1 (by decide) (by decide),
   (c10_empty_section_invalid_like_absent bodyB "Template".data "ts".data "\n \n".data
      parseA inpB issB rfl (by decide)).2 (Or.inl (by decide))⟩

theorem find?_append_of_none {p : List Char × Yv → Bool} :
    ∀ {l1 l2 : List (List Char × Yv)}, (∀ x ∈ l1, p x = false) →
      (l1 ++ l2).find? p = l2.find? p := by
  intro l1
  induction l1 with
  | nil => intro l2 _; rfl
  | cons e es ih =>
    intro l2 h
    simp only [List.cons_append, List.find?]
    rw [h e (by simp)]
    exact ih (fun x hx => h x (by simp [hx]))

theorem find?_append_some {p : List Char × Yv → Bool} :
    ∀ {l1 l2 : List (List Char × Yv)} {x}, l1.find? p = some x →
      (l1 ++ l2).find? p = some x := by
  intro l1
  induction l1 with
  | nil => intro l2 x h; exact absurd h (by simp)
  | cons e es ih =>
    intro l2 x h
    simp only [List.find?] at h
    simp only [List.cons_append, List.find?]
    cases he : p e
    · rw [he] at h
      exact ih h
    · rw [he] at h
      exact h

theorem find?_setKey_map {k : List Char} {v : Yv} :
    ∀ es : List (List Char × Yv), es.any (fun e => e.1 == k) = true →
      ∃ k1, (es.map (fun e => if e.1 == k then (e.1, v) else e)).find?
        (fun e => e.1 == k) = some (k1, v) := by
  intro es
  induction es with
  | nil => intro h; simp at h
  | cons e es ih =>
    intro h
    cases hek : (e.1 == k)
    · simp only [List.any_cons, hek, Bool.false_or] at h
      obtain ⟨k1, hk1⟩ := ih h
      refine ⟨k1, ?_⟩
      simp only [List.map_cons, List.find?]
      rw [if_neg (by simp [hek])]
      rw [hek]
      exact hk1
    · refine ⟨e.1, ?_⟩
      simp only [List.map_cons, List.find?]
      rw [if_pos hek]
      simp [hek]

theorem any_false_all {p : List Char × Yv → Bool} :
    ∀ {l : List (List Char × Yv)}, l.any p = false → ∀ x ∈ l, p x = false := by
  intro l
  induction l with
  | nil => intro _ x hx; cases hx
  | cons e es ih =>
    intro h x hx
    simp only [List.any_cons] at h
    rw [Bool.or_eq_false_iff] at h
    rcases List.mem_cons.mp hx with rfl | hx2
    · exact h.1
    · exact ih h.2 x hx2

theorem yGet_setKey (es : List (List Char × Yv)) (k : List Char) (v : Yv) :
    yGet (Yv.vmap (setKey es k v)) k = some v := by
  unfold setKey
  cases h : es.any (fun e => e.1 == k)
  · rw [if_neg (by simp)]
    simp only [yGet]
    rw [find?_append_of_none (any_false_all h)]
    simp
  · rw [if_pos rfl]
    obtain ⟨k1, hk1⟩ := find?_setKey_map es h
    simp only [yGet]
    rw [hk1]
    rfl

theorem yGet_setKey_ne (es : List (List Char × Yv)) (k k2 : List Char) (v : Yv)
    (hne : (k2 == k) = false) :
    yGet (Yv.vmap (setKey es k v)) k2 = yGet (Yv.vmap es) k2 := by
  have hkk2 : (k == k2) = false := by
    cases hc : (k == k2)
    · rfl
    · have h2 : k = k2 := eq_of_beq hc
      subst h2
      rw [beq_self_eq_true] at hne
      exact absurd hne (by simp)
  unfold setKey
  cases h : es.any (fun e => e.1 == k)
  · rw [if_neg (by simp)]
    simp only [yGet]
    rcases hf : es.find? (fun e => e.1 == k2) with _ | x
    · have hall : ∀ x ∈ es, (fun e : List Char × Yv => e.1 == k2) x = false := by
        intro x hx
        have hnx := List.find?_eq_none.mp hf x hx
        cases hcx : (x.1 == k2)
        · exact hcx
        · exact absurd hcx hnx
      rw [find?_append_of_none hall, hf]
      simp [List.find?, hkk2]
    · rw [find?_append_some hf, hf]
  · rw [if_pos rfl]
    simp only [yGet]
    have hmap : ∀ l : List (List Char × Yv),
        ((l.map (fun e => if e.1 == k then (e.1, v) else e)).find?
          (fun e => e.1 == k2)).map (fun e => e.2)
        = (l.find? (fun e => e.1 == k2)).map (fun e => e.2) := by
      intro l
      induction l with
      | nil => rfl
      | cons e es2 ih =>
        cases hek : (e.1 == k)
        · cases he2 : (e.1 == k2)
          · simpa [List.find?, hek, he2] using ih
          · simp [List.find?, hek, he2]
        · have hke : e.1 = k := eq_of_beq hek
          have h1 : (e.1 == k2) = false := by rw [hke]; exact hkk2
          simpa [List.find?, hek, h1] using ih
    exact hmap es

theorem validOutcome_push_fields (inp : ActionInput) (iss : Issue) (loc : Loc) (iv2 : Yv)
    (t : List Char) (u : User) :
    pushInfos (validOutcome inp iss loc iv2 t u) = [iv2] ∧
    pushNames (validOutcome inp iss loc iv2 t u) = [u.name] := by
  simp only [validOutcome]
  split
  · rename_i ep _
    rcases updateCommentStep_snd inp.comments (msgBody loc ep.number inp.tsBadge inp.pgBadge)
        inp.newCommentId with h2 | ⟨cid, h2⟩ <;>
      rw [h2] <;>
      exact ⟨by simp [pushInfos, Op.pushInfo?], by simp [pushNames, Op.pushName?]⟩
  · rcases updateCommentStep_snd inp.comments
        (msgBody loc inp.newPrNumber inp.tsBadge inp.pgBadge) inp.newCommentId
        with h2 | ⟨cid, h2⟩ <;>
      rw [h2] <;>
      exact ⟨by simp [pushInfos, Op.pushInfo?], by simp [pushNames, Op.pushName?]⟩

/-- Metadata that carries an explicit `author: null` entry. -/
def infoMapD : Yv :=
  .vmap [("title".data, .vstr "Foo".data), ("difficulty".data, .vstr "easy".data),
    ("author".data, Yv.vnull)]

/-- YAML oracle for `infoMapD`. -/
def parseD : List Char → Option Yv :=
  fun s => if s == "info".data then some infoMapD else none

/-- Invocation input for the `author: null` scenario. -/
def inpD : ActionInput := ⟨some issA, some userA, [], [], 7, 99, [], []⟩

/-- C7 counterexample: metadata whose `author` field is present (with
the YAML value `null`) is nonetheless rewritten by the Author Resolver,
because the source tests `!info.author` (JavaScript falsiness), not
field presence: the committed metadata carries the populated
github/name block instead of the explicit `null`. -/
theorem c7_counterexample_null_author_overwritten :
    yGet infoMapD "author".data = some Yv.vnull ∧
    authorStep infoMapD "alice".data (some userA) = some infoMapA2 ∧
    pushInfos (runAction parseD inpD) = [infoMapA2] ∧
    yGet infoMapA2 "author".data
      = some (Yv.vmap [("github".data, .vstr "alice".data),
          ("name".data, .vstr "Alice".data)]) ∧
    Yv.vmap [("github".data, .vstr "alice".data), ("name".data, .vstr "Alice".data)]
      ≠ Yv.vnull := by
  refine ⟨rfl, rfl, rfl, rfl, fun h => Yv.noConfusion h⟩

/-- C7 amended: the Author Resolver keys on JavaScript truthiness of
`info.author`, not on presence.  When the field is truthy it is left
unmodified — the committed metadata is exactly the parsed metadata,
even though a user profile was fetched; when it is absent or falsy
(null, empty), it is replaced by the fresh author block holding the
issue author's login as `github` and the fetched profile's display
name as `name`. -/
theorem c7_author_resolver_override (parse : List Char → Option Yv) (inp : ActionInput)
    (iss : Issue) (iv : Yv) (es : List (List Char × Yv)) (t : List Char) (u : User)
    (hiss : inp.issue = some iss)
    (hlab : iss.labels.any (fun l => l == "new-challenge".data) = true)
    (hq : optFalsyStr (getCommentRange iss.body "question".data) = false)
    (htpl : optFalsyStr (getCodeBlock iss.body (Messages.template (localeOf iss)) "ts".data)
      = false)
    (htst : optFalsyStr (getCodeBlock iss.body (Messages.tests (localeOf iss)) "ts".data)
      = false)
    (hinfo : parsedInfo parse iss.body (localeOf iss) = some iv)
    (htru : truthy iv = true)
    (huser : inp.user = some u) :
    (optFalsy (yGet iv "author".data) = false →
      yGet iv "title".data = some (Yv.vstr t) →
      pushInfos (runAction parse inp) = [iv]) ∧
    (iv = Yv.vmap es →
      optFalsy (yGet iv "author".data) = true →
      yGet (Yv.vmap (setKey es "author".data (authorBlock iss.userLogin inp.user)))
          "title".data = some (Yv.vstr t) →
      pushInfos (runAction parse inp)
          = [Yv.vmap (setKey es "author".data (authorBlock iss.userLogin inp.user))] ∧
      yGet (Yv.vmap (setKey es "author".data (authorBlock iss.userLogin inp.user)))
          "author".data = some (authorBlock iss.userLogin inp.user)) := by
  constructor
  · intro hauth htitle
    have hstep : authorStep iv iss.userLogin inp.user = some iv := by
      unfold authorStep
      rw [if_neg (by simp [hauth])]
    rw [runAction_challenge hiss hlab, runChallenge_valid hq htpl htst hinfo htru,
      runValid_ok hstep htitle huser]
    exact (validOutcome_push_fields inp iss (localeOf iss) iv t u).1
  · intro hes hauth htitle2
    have hstep : authorStep iv iss.userLogin inp.user
        = some (Yv.vmap (setKey es "author".data (authorBlock iss.userLogin inp.user))) := by
      unfold authorStep
      rw [if_pos hauth, hes]
    rw [runAction_challenge hiss hlab, runChallenge_valid hq htpl htst hinfo htru,
      runValid_ok hstep htitle2 huser]
    exact ⟨(validOutcome_push_fields inp iss (localeOf iss) _ t u).1,
      yGet_setKey es "author".data (authorBlock iss.userLogin inp.user)⟩

/-- Metadata with an explicit truthy author override differing from the
fetched profile. -/
def infoMapF : Yv :=
  .vmap [("title".data, .vstr "Foo".data), ("difficulty".data, .vstr "easy".data),
    ("author".data, .vmap [("github".data, .vstr "someone".data)])]

/-- YAML oracle for `infoMapF`. -/
def parseF : List Char → Option Yv :=
  fun s => if s == "info".data then some infoMapF else none

/-- Invocation input for the author-override scenario. -/
def inpF : ActionInput := ⟨some issA, some userA, [], [], 7, 99, [], []⟩

/-- Witness for C7: with a truthy `author` override present, the
committed metadata is the parsed metadata unchanged, although the
fetched profile (`Alice`) differs from the override (`someone`). -/
theorem c7_author_resolver_override_witness :
    pushInfos (runAction parseF inpF) = [infoMapF] :=
  (c7_author_resolver_override parseF inpF issA infoMapF [] "Foo".data userA
      rfl (by decide) (by decide) (by decide) (by decide) rfl (by decide) rfl).1
    (by rfl) (by rfl)

theorem validOutcome_notifies (inp : ActionInput) (iss : Issue) (loc : Loc) (iv2 : Yv)
    (t : List Char) (u : User) :
    (postedBodies (validOutcome inp iss loc iv2 t u)).length = 1 ∧
    hasPush (validOutcome inp iss loc iv2 t u) = true := by
  simp only [validOutcome]
  split
  · rename_i ep _
    rcases updateCommentStep_snd inp.comments (msgBody loc ep.number inp.tsBadge inp.pgBadge)
        inp.newCommentId with h2 | ⟨cid, h2⟩ <;>
      rw [h2] <;>
      exact ⟨by simp [postedBodies, Op.postedBody?], by simp [hasPush, Op.isPush]⟩
  · rcases updateCommentStep_snd inp.comments
        (msgBody loc inp.newPrNumber inp.tsBadge inp.pgBadge) inp.newCommentId
        with h2 | ⟨cid, h2⟩ <;>
      rw [h2] <;>
      exact ⟨by simp [postedBodies, Op.postedBody?], by simp [hasPush, Op.isPush]⟩

/-- Scenario A input but the user lookup returned no record. -/
def inpG : ActionInput := ⟨some issA, none, [], [], 7, 99, [], []⟩

/-- C8 counterexample: on a valid submission with no user record the
workflow does not degrade gracefully — it crashes with a `TypeError`
while computing the commit-author email (`user.id` at issue-pr.ts:105
is dereferenced unguarded), after the user lookup and the pull listing
but before any commit or notification. -/
theorem c8_counterexample_missing_user_crashes :
    (runAction parseA inpG).result = RunResult.crashed ∧
    hasPush (runAction parseA inpG) = false ∧
    postedBodies (runAction parseA inpG) = [] ∧
    (runAction parseA inpG).ops = [Op.getUser "alice".data, Op.listPulls] := by
  refine ⟨rfl, by decide, by decide, rfl⟩

/-- C8 amended: graceful degradation holds only for a missing display
name, not for a missing user record.  When the lookup returns no record
the run crashes before the commit and notification steps (no push, no
comment); when a record exists but its display name is null, the run
proceeds through commit and notification with only the name missing
(the commit author's name is null). -/
theorem c8_user_lookup_degradation (parse : List Char → Option Yv) (inp : ActionInput)
    (iss : Issue) (iv : Yv) (t : List Char) (u : User)
    (hiss : inp.issue = some iss)
    (hlab : iss.labels.any (fun l => l == "new-challenge".data) = true)
    (hq : optFalsyStr (getCommentRange iss.body "question".data) = false)
    (htpl : optFalsyStr (getCodeBlock iss.body (Messages.template (localeOf iss)) "ts".data)
      = false)
    (htst : optFalsyStr (getCodeBlock iss.body (Messages.tests (localeOf iss)) "ts".data)
      = false)
    (hinfo : parsedInfo parse iss.body (localeOf iss) = some iv)
    (htru : truthy iv = true) :
    (inp.user = none →
      (runAction parse inp).result = RunResult.crashed ∧
      hasPush (runAction parse inp) = false ∧
      postedBodies (runAction parse inp) = []) ∧
    (∀ iv2, inp.user = some u → u.name = none →
      authorStep iv iss.userLogin inp.user = some iv2 →
      yGet iv2 "title".data = some (Yv.vstr t) →
      pushNames (runAction parse inp) = [none] ∧
      (postedBodies (runAction parse inp)).length = 1 ∧
      hasPush (runAction parse inp) = true) := by
  constructor
  · intro hnouser
    rw [runAction_challenge hiss hlab, runChallenge_valid hq htpl htst hinfo htru]
    rcases hstep : authorStep iv iss.userLogin inp.user with _ | iv2
    · rw [hnouser] at hstep
      simp only [runValid, hnouser, hstep]
      exact ⟨by simp, by simp [hasPush, Op.isPush], by simp [postedBodies, Op.postedBody?]⟩
    · rw [hnouser] at hstep
      simp only [runValid, hnouser, hstep]
      rcases yGet iv2 "title".data with _ | tv
      · exact ⟨by simp, by simp [hasPush, Op.isPush], by simp [postedBodies, Op.postedBody?]⟩
      · rcases tv with _ | b | n | sx | es2 <;>
          exact ⟨by simp, by simp [hasPush, Op.isPush], by simp [postedBodies, Op.postedBody?]⟩
  · intro iv2 huser hname hstep htitle
    rw [runAction_challenge hiss hlab, runChallenge_valid hq htpl htst hinfo htru,
      runValid_ok hstep htitle huser]
    refine ⟨?_, (validOutcome_notifies inp iss (localeOf iss) iv2 t u).1,
      (validOutcome_notifies inp iss (localeOf iss) iv2 t u).2⟩
    rw [(validOutcome_push_fields inp iss (localeOf iss) iv2 t u).2, hname]

/-- User record with a null display name. -/
def userH : User := ⟨"alice".data, 10, none⟩

/-- Scenario A input with the null-display-name user record. -/
def inpH : ActionInput := ⟨some issA, some userH, [], [], 7, 99, [], []⟩

/-- `infoMapA` after the author step with a null display name. -/
def infoMapH2 : Yv :=
  .vmap [("title".data, .vstr "Foo".data), ("difficulty".data, .vstr "easy".data),
    ("author".data, .vmap [("github".data, .vstr "alice".data),
      ("name".data, Yv.vnull)])]

/-- Witness for C8 at both scenarios: missing record crashes with no
push or comment; null display name proceeds with the name missing. -/
theorem c8_user_lookup_degradation_witness :
    ((runAction parseA inpG).result = RunResult.crashed ∧
      hasPush (runAction parseA inpG) = false ∧
      postedBodies (runAction parseA inpG) = []) ∧
    (pushNames (runAction parseA inpH) = [none] ∧
      (postedBodies (runAction parseA inpH)).length = 1 ∧
      hasPush (runAction parseA inpH) = true) :=
  ⟨(c8_user_lookup_degradation parseA inpG issA infoMapA "Foo".data userA
      rfl (by decide) (by decide) (by decide) (by decide) rfl (by decide)).1 rfl,
   (c8_user_lookup_degradation parseA inpH issA infoMapA "Foo".data userH
      rfl (by decide) (by decide) (by decide) (by decide) rfl (by decide)).2
     infoMapH2 rfl rfl rfl rfl⟩
